import Mathlib

/-!
Shallow embedding of the pseudo-yy-boss synchronization core:
the `Files` child list and `ResourceNames` index (src/boss/folders/file.rs),
and the typed resource store `YyResourceHandler` with its deferred
write-back queues (src/boss/yy_resource_handler.rs).

Filesystem paths are modelled as lists of segments; `HashMap` is modelled
as an association list with unique keys maintained by its operations;
disk I/O performed during `serialize` is modelled by an oracle deciding
which filesystem operations succeed, and the operations attempted are
collected into a trace.
-/

namespace YyBoss

/-- A filesystem path, as a list of segments (`PathBuf` in the source). -/
abbrev FsPath := List String

/-- `Path::parent().unwrap()` on a path known to be non-empty. -/
def pathParent (p : FsPath) : FsPath := p.dropLast

/-- `Path::parent()`: `none` on the empty path, otherwise drops the last segment. -/
def pathParentOpt (p : FsPath) : Option FsPath :=
  if p.isEmpty then none else some p.dropLast

/-- From yy_typings: `FilesystemPath { name, path }` where
`path = <subpath>/<name>/<name>.yy`. -/
structure FilesystemPath where
  name : String
  path : FsPath
  deriving DecidableEq, Repr

/-- `FilesystemPath::new_path(subpath, name)`: the relative path of the
resource descriptor file. -/
def FilesystemPath.new_path (subpath name : String) : FsPath :=
  [subpath, name, name ++ ".yy"]

/-- `FilesystemPath::new(subpath, name)`. -/
def FilesystemPath.new (subpath name : String) : FilesystemPath :=
  ⟨name, FilesystemPath.new_path subpath name⟩

/-- The directory manager, reduced to what the handler uses of it:
`resource_file` resolves a project-relative path against the root. -/
structure DirectoryManager where
  root : FsPath
  deriving DecidableEq, Repr

/-- `DirectoryManager::resource_file`: joins the root with a relative path. -/
def DirectoryManager.resource_file (dm : DirectoryManager) (p : FsPath) : FsPath :=
  dm.root ++ p

/-! ### Association-list model of `std::collections::HashMap` -/

section MapModel

variable {β : Type}

/-- `HashMap::get`: value of the first entry with the given key. -/
def mapFind (k : String) : List (String × β) → Option β
  | [] => none
  | (k₂, v) :: rest => if k₂ = k then some v else mapFind k rest

/-- `HashMap::insert`: replaces the first entry with the given key in place,
returning the prior value; appends when absent. -/
def mapInsert (k : String) (v : β) : List (String × β) → List (String × β) × Option β
  | [] => ([(k, v)], none)
  | (k₂, v₂) :: rest =>
    if k₂ = k then ((k, v) :: rest, some v₂)
    else
      let r := mapInsert k v rest
      ((k₂, v₂) :: r.1, r.2)

/-- `HashMap::remove`: removes the first entry with the given key,
returning its value. -/
def mapRemove (k : String) : List (String × β) → List (String × β) × Option β
  | [] => ([], none)
  | (k₂, v₂) :: rest =>
    if k₂ = k then (rest, some v₂)
    else
      let r := mapRemove k rest
      ((k₂, v₂) :: r.1, r.2)

/-- `HashMap::contains_key`. -/
def mapContains (k : String) (m : List (String × β)) : Bool :=
  (mapFind k m).isSome

/-- Adjusts (via `get_mut`) the value of the first entry with the given key. -/
def mapAdjust (k : String) (f : β → β) : List (String × β) → List (String × β)
  | [] => []
  | (k₂, v₂) :: rest =>
    if k₂ = k then (k₂, f v₂) :: rest else (k₂, v₂) :: mapAdjust k f rest

theorem mapInsert_snd_eq_mapFind (k : String) (v : β) (m : List (String × β)) :
    (mapInsert k v m).2 = mapFind k m := by
  induction m with
  | nil => rfl
  | cons hd tl ih =>
    simp only [mapInsert, mapFind]
    split <;> simp [ih]

theorem mapFind_mapInsert_self (k : String) (v : β) (m : List (String × β)) :
    mapFind k (mapInsert k v m).1 = some v := by
  induction m with
  | nil => simp [mapInsert, mapFind]
  | cons hd tl ih =>
    simp only [mapInsert]
    split
    · simp [mapFind]
    · simp [mapFind, *]

theorem mapFind_mapInsert_ne (k k₁ : String) (v : β) (m : List (String × β))
    (h : k₁ ≠ k) : mapFind k₁ (mapInsert k v m).1 = mapFind k₁ m := by
  induction m with
  | nil => simp [mapInsert, mapFind, (Ne.symm h)]
  | cons hd tl ih =>
    simp only [mapInsert]
    split
    · simp only [mapFind]
      rename_i heq
      rw [if_neg (Ne.symm h), heq, if_neg (Ne.symm h)]
    · simp only [mapFind]
      split <;> simp [ih]

theorem mapInsert_idem (k : String) (v : β) (m : List (String × β)) :
    (mapInsert k v (mapInsert k v m).1).1 = (mapInsert k v m).1 := by
  induction m with
  | nil => simp [mapInsert]
  | cons hd tl ih =>
    simp only [mapInsert]
    split
    · simp [mapInsert]
    · simp [mapInsert, *]

theorem mapRemove_snd_eq_mapFind (k : String) (m : List (String × β)) :
    (mapRemove k m).2 = mapFind k m := by
  induction m with
  | nil => rfl
  | cons hd tl ih =>
    simp only [mapRemove, mapFind]
    split <;> simp [ih]

theorem mapRemove_absent (k : String) (m : List (String × β))
    (h : mapFind k m = none) : mapRemove k m = (m, none) := by
  induction m with
  | nil => rfl
  | cons hd tl ih =>
    simp only [mapFind] at h
    simp only [mapRemove]
    split
    · rename_i heq
      rw [if_pos heq] at h
      exact absurd h (by simp)
    · rename_i heq
      rw [if_neg heq] at h
      simp [ih h]

theorem mapFind_mapRemove_self (k : String) (m : List (String × β))
    (hnd : (m.map Prod.fst).Nodup) :
    mapFind k (mapRemove k m).1 = none := by
  induction m with
  | nil => rfl
  | cons hd tl ih =>
    simp only [List.map_cons, List.nodup_cons] at hnd
    simp only [mapRemove]
    split
    · rename_i heq
      subst heq
      cases hfind : mapFind hd.1 tl with
      | none => rfl
      | some v =>
        exfalso
        apply hnd.1
        clear ih hnd
        induction tl with
        | nil => simp [mapFind] at hfind
        | cons hd₂ tl₂ ih₂ =>
          simp only [mapFind] at hfind
          by_cases h2 : hd₂.1 = hd.1
          · exact List.mem_map.mpr ⟨hd₂, List.mem_cons_self _ _, h2⟩
          · rw [if_neg h2] at hfind
            exact List.mem_cons_of_mem _ (ih₂ hfind)
    · rename_i heq
      simp only [mapFind, if_neg heq]
      exact ih hnd.2

theorem mapRemove_length (k : String) (m : List (String × β)) :
    (mapRemove k m).1.length =
      if mapContains k m then m.length - 1 else m.length := by
  induction m with
  | nil => rfl
  | cons hd tl ih =>
    simp only [mapRemove, mapContains, mapFind]
    split
    · simp [mapContains]
    · rename_i heq
      simp only [List.length_cons, if_neg heq]
      simp only [mapContains] at ih
      split
      · rename_i hsome
        rw [if_pos hsome] at ih
        rw [ih]
        cases htl : tl.length with
        | zero =>
          exfalso
          rw [List.length_eq_zero] at htl
          subst htl
          simp [mapFind] at hsome
        | succ n => omega
      · rename_i hnone
        rw [if_neg hnone] at ih
        rw [ih]

end MapModel

/-! ### `Resource` (src/boss/resources.rs) -/

/-- The closed set of resource kinds. -/
inductive Resource where
  | Sprite
  | Script
  | Object
  | Note
  | Shader
  | AnimationCurve
  | Extension
  | Font
  | Path
  | Sequence
  | Sound
  | TileSet
  | Timeline
  deriving DecidableEq, Repr

/-- `Resource::can_manipulate`. -/
def Resource.can_manipulate : Resource → Bool
  | .Sprite | .Script | .Object | .Note | .Shader => true
  | .AnimationCurve | .Extension | .Font | .Path | .Sequence | .Sound
  | .TileSet | .Timeline => false

/-! ### `ResourceNames` (name index)

The `ResourceNames` type itself is not part of the sources at hand, only
its callers in src/boss/folders/file.rs are; it is modelled from the spec. -/

/-- Modelled from the spec: a `NameIndex` entry, `{resource type, order,
parent folder path}` (`ResourceDescriptor::new(T::RESOURCE, order, parent)`). -/
structure ResourceDescriptor where
  resource : Resource
  order : Nat
  parent : FsPath
  deriving DecidableEq, Repr

/-- Modelled from the spec: the `NameIndex`, a global mapping from resource
name to its descriptor; the type `ResourceNames` is absent from the sources
at hand. -/
structure ResourceNames where
  names : List (String × ResourceDescriptor)
  deriving DecidableEq, Repr

/-- Modelled from the spec: `insert(name, type, order, parent)` fails with
`NameCollision` when the name is present — failing means no mutation. -/
def ResourceNames.insert (rn : ResourceNames) (name : String)
    (rd : ResourceDescriptor) : ResourceNames :=
  if mapContains name rn.names then rn
  else ⟨(mapInsert name rd rn.names).1⟩

/-- Modelled from the spec: `remove(name)` deletes the entry of that name,
when present. -/
def ResourceNames.remove (rn : ResourceNames) (name : String) : ResourceNames :=
  ⟨(mapRemove name rn.names).1⟩

/-- Modelled from the spec: `contains(name)`. -/
def ResourceNames.containsName (rn : ResourceNames) (name : String) : Bool :=
  mapContains name rn.names

/-! ### `Files` (src/boss/folders/file.rs) -/

/-- `Iterator::position`: index of the first element satisfying the
predicate. -/
def position (p : α → Bool) : List α → Option Nat
  | [] => none
  | x :: xs => if p x then some 0 else (position p xs).map (· + 1)

/-- `Files(Vec<FilesystemPath>)`: the ordered children (file leaves) of one
folder. -/
abbrev Files := List FilesystemPath

/-- `Files::contains_name`. -/
def Files.contains_name (fs : Files) (name : String) : Bool :=
  fs.any (fun f => f.name == name)

/-- `Files::attach`: `self.0.push(fsyspath)`. -/
def Files.attach (fs : Files) (fsyspath : FilesystemPath) : Files :=
  fs.concat fsyspath

/-- `Files::detach`: `self.0.iter().position(|v| v.name == name).map(|p|
self.0.remove(p))` — drops the first entry with the given name and returns
it. -/
def Files.detach (fs : Files) (name : String) : Option FilesystemPath × Files :=
  match position (fun v => v.name == name) fs with
  | some p => (fs.get? p, fs.eraseIdx p)
  | none => (none, fs)

/-- `Files::is_empty`. -/
def Files.is_empty (fs : Files) : Bool :=
  fs.isEmpty

/-- `Files::add`: attaches a `FilesystemPath::new(T::SUBPATH_NAME, name)`
leaf and inserts the name, with its descriptor, into the name index.
The resource's `T::SUBPATH_NAME`, `name()`, `T::RESOURCE` and
`parent_view_path().path` are passed explicitly. -/
def Files.add (fs : Files) (rn : ResourceNames) (subpath name : String)
    (resource : Resource) (order : Nat) (parent : FsPath) :
    Files × ResourceNames :=
  (fs.attach (FilesystemPath.new subpath name),
   rn.insert name ⟨resource, order, parent⟩)

/-- `Files::remove`: detaches the named leaf (result discarded) and removes
the name from the name index. -/
def Files.remove (fs : Files) (rn : ResourceNames) (name : String) :
    Files × ResourceNames :=
  ((fs.detach name).2, rn.remove name)

/-! ### `YyResourceHandler<T>` (src/boss/yy_resource_handler.rs)

The handler is generic over `T: YyResource`; the trait's methods and
associated constants used by the handler are bundled into a descriptor
record. `deserialize_associated_data` reads the disk, so its modelled form
is a function of the resource and the path — a fixed disk content is baked
into the descriptor supplied to each theorem. -/

/-- The parts of the `YyResource` trait (src/boss/yy_resource.rs) that the
handler calls: `name`, `relative_yy_directory`, `cleanup_on_replace`
(returning the files and folders it would push), the fallible
`deserialize_associated_data`, and the constant `SUBPATH_NAME`. -/
structure YyResourceDesc (T A : Type) where
  name : T → String
  relative_yy_directory : T → FsPath
  cleanup_on_replace : T → List FsPath × List FsPath
  deserialize_associated_data : T → FsPath → Except String A
  SUBPATH_NAME : String

/-- `YyResourceData<T>`. -/
structure YyResourceData (T A : Type) where
  yy_resource : T
  associated_data : Option A
  deriving DecidableEq, Repr

/-- `YyResourceHandler<T>`: the resources map plus the four deferred
write-back queues. -/
structure YyResourceHandler (T A : Type) where
  resources : List (String × YyResourceData T A)
  resources_to_reserialize : List String
  associated_files_to_cleanup : List FsPath
  associated_folders_to_cleanup : List FsPath
  resources_to_remove : List String
  deriving DecidableEq, Repr

/-- `YyResourceHandler::new` / `Default::default`. -/
def YyResourceHandler.new (T A : Type) : YyResourceHandler T A :=
  ⟨[], [], [], [], []⟩

section Handler

variable {T A : Type}

/-- `YyResourceHandler::insert_resource`: inserts under `value.name()`,
returning the displaced entry. -/
def YyResourceHandler.insert_resource (d : YyResourceDesc T A)
    (h : YyResourceHandler T A) (value : T) (associated_data : Option A) :
    YyResourceHandler T A × Option (YyResourceData T A) :=
  let r := mapInsert (d.name value) ⟨value, associated_data⟩ h.resources
  ({ h with resources := r.1 }, r.2)

/-- `YyResourceHandler::set`: pushes the name onto the reserialize queue,
inserts, and, when an entry was displaced, pushes the old resource's
`cleanup_on_replace` output onto the cleanup queues; returns the displaced
entry. -/
def YyResourceHandler.set (d : YyResourceDesc T A) (h : YyResourceHandler T A)
    (value : T) (associated_data : A) :
    YyResourceHandler T A × Option (YyResourceData T A) :=
  let h₁ := { h with resources_to_reserialize :=
                h.resources_to_reserialize ++ [d.name value] }
  let r := h₁.insert_resource d value (some associated_data)
  match r.2 with
  | some old =>
    let c := d.cleanup_on_replace old.yy_resource
    ({ r.1 with
        associated_files_to_cleanup := r.1.associated_files_to_cleanup ++ c.1,
        associated_folders_to_cleanup :=
          r.1.associated_folders_to_cleanup ++ c.2 }, r.2)
  | none => (r.1, r.2)

/-- `YyResourceHandler::get`. -/
def YyResourceHandler.get (h : YyResourceHandler T A) (name : String) :
    Option (YyResourceData T A) :=
  mapFind name h.resources

/-- `YyResourceHandler::load_resource_associated_data`: when the name is
managed, deserializes the associated data from the given path, stores it in
the entry and returns it; otherwise fails with `ResourceNotFound`.
Deserialization failures propagate (modelled as `.error (.inr msg)`;
`ResourceNotFound` is `.error (.inl ())`). -/
def YyResourceHandler.load_resource_associated_data (d : YyResourceDesc T A)
    (h : YyResourceHandler T A) (resource_name : String) (path : FsPath) :
    YyResourceHandler T A × Except (Unit ⊕ String) A :=
  match mapFind resource_name h.resources with
  | some resource =>
    match d.deserialize_associated_data resource.yy_resource path with
    | .ok associated_data =>
      ({ h with
          resources :=
            mapAdjust resource_name
              (fun r => { r with associated_data := some associated_data })
              h.resources },
       .ok associated_data)
    | .error e => (h, .error (.inr e))
  | none => (h, .error (.inl ()))

/-- `YyResourceHandler::remove`: removes the map entry; when it existed,
pushes the name onto the removal queue and, when the associated data was
not resident, attempts to lazily load it (failure tolerated: the result is
`.ok`-ed into an `Option`); returns the definition and the (possibly
absent) associated data. -/
def YyResourceHandler.remove (d : YyResourceDesc T A)
    (h : YyResourceHandler T A) (value : String) :
    YyResourceHandler T A × Option (T × Option A) :=
  let r := mapRemove value h.resources
  match r.2 with
  | some ret =>
    let h₁ := { h with
                resources := r.1,
                resources_to_remove := h.resources_to_remove ++ [value] }
    let yy := ret.yy_resource
    let assoc := ret.associated_data
    if assoc.isNone then
      let load := h₁.load_resource_associated_data d (d.name yy)
        (d.relative_yy_directory yy)
      (load.1, some (yy, load.2.toOption))
    else
      (h₁, some (yy, assoc))
  | none => (h, none)

/-- `YyResourceHandler::load_on_startup`. -/
def YyResourceHandler.load_on_startup (d : YyResourceDesc T A)
    (h : YyResourceHandler T A) (value : T) : YyResourceHandler T A :=
  (h.insert_resource d value none).1

end Handler

/-! ### `YyResourceHandler::serialize`

The filesystem side effects are modelled as a trace of operations; an
oracle decides which operations succeed. A failing `?` inside a
`for _ in vec.drain(..)` loop drops the `Drain` iterator, which removes
every remaining element of the drained range — so the drained queue ends
empty whether or not the loop ran to completion. -/

/-- A filesystem operation attempted during `serialize`. -/
inductive FsOp where
  | remove_dir_all (p : FsPath)
  | remove_file (p : FsPath)
  | create_dir_all (p : FsPath)
  | serialize_associated_data (dir : FsPath) (name : String)
  | serialize_json (p : FsPath)
  deriving DecidableEq, Repr

/-- Outcome of `serialize`: success, a propagated I/O error, or the panic
of the `expect("This should always be valid.")` lookup. -/
inductive SerializeResult where
  | ok
  | ioError
  | panicked
  deriving DecidableEq, Repr

/-- The removals loop: for each queued name, `remove_dir_all` on the parent
of `resource_file(FilesystemPath::new_path(SUBPATH_NAME, name))`. Returns
the attempted operations and whether all succeeded. -/
def runRemovals (dm : DirectoryManager) (oracle : FsOp → Bool)
    (subpath : String) : List String → List FsOp × Bool
  | [] => ([], true)
  | r :: rest =>
    let op := FsOp.remove_dir_all
      (pathParent (dm.resource_file (FilesystemPath.new_path subpath r)))
    if oracle op then
      let t := runRemovals dm oracle subpath rest
      (op :: t.1, t.2)
    else ([op], false)

/-- The folder-cleanup loop: `remove_dir_all` on
`resource_file(SUBPATH_NAME).join(folder)`. -/
def runFolderCleanup (dm : DirectoryManager) (oracle : FsOp → Bool)
    (subpath : String) : List FsPath → List FsOp × Bool
  | [] => ([], true)
  | folder :: rest =>
    let op := FsOp.remove_dir_all (dm.resource_file [subpath] ++ folder)
    if oracle op then
      let t := runFolderCleanup dm oracle subpath rest
      (op :: t.1, t.2)
    else ([op], false)

/-- The file-cleanup loop: `remove_file` on
`resource_file(SUBPATH_NAME).join(file)`. -/
def runFileCleanup (dm : DirectoryManager) (oracle : FsOp → Bool)
    (subpath : String) : List FsPath → List FsOp × Bool
  | [] => ([], true)
  | file :: rest =>
    let op := FsOp.remove_file (dm.resource_file [subpath] ++ file)
    if oracle op then
      let t := runFileCleanup dm oracle subpath rest
      (op :: t.1, t.2)
    else ([op], false)

/-- Attempts a list of operations in order, stopping at the first failure;
returns the attempted operations and whether all succeeded. -/
def attemptOps (oracle : FsOp → Bool) : List FsOp → List FsOp × Bool
  | [] => ([], true)
  | op :: rest =>
    if oracle op then
      let t := attemptOps oracle rest
      (op :: t.1, t.2)
    else ([op], false)

/-- The operations of one reserialization before the final
`serialize_json`: `create_dir_all` on the parent of the yy path (when it
has one) and, when the associated data is resident,
`serialize_associated_data` into that parent. -/
def reserializePreOps (yy_path : FsPath) (assocResident : Bool)
    (name : String) : List FsOp :=
  match pathParentOpt yy_path with
  | some parent_dir =>
    FsOp.create_dir_all parent_dir ::
      (if assocResident then [FsOp.serialize_associated_data parent_dir name]
       else [])
  | none => []

section SerializeLoop

variable {T A : Type}

/-- The reserialize loop: looks each queued name up in the resources map —
panicking, as `expect("This should always be valid.")` does, when it is
absent — then attempts the pre-operations and the final `serialize_json`
of `resource_file(FilesystemPath::new(SUBPATH_NAME, name).path)`. -/
def runReserialize (d : YyResourceDesc T A) (dm : DirectoryManager)
    (oracle : FsOp → Bool) (resources : List (String × YyResourceData T A)) :
    List String → List FsOp × SerializeResult
  | [] => ([], .ok)
  | r :: rest =>
    match mapFind r resources with
    | none => ([], .panicked)
    | some resource =>
      let yy_path := dm.resource_file
        (FilesystemPath.new d.SUBPATH_NAME (d.name resource.yy_resource)).path
      let pre := attemptOps oracle
        (reserializePreOps yy_path resource.associated_data.isSome
          (d.name resource.yy_resource))
      if pre.2 then
        let op := FsOp.serialize_json yy_path
        if oracle op then
          let t := runReserialize d dm oracle resources rest
          (pre.1 ++ op :: t.1, t.2)
        else (pre.1 ++ [op], .ioError)
      else (pre.1, .ioError)

/-- `YyResourceHandler::serialize`: drains the four queues in order —
removals, folder cleanups, file cleanups, reserializations — emitting the
corresponding filesystem operations; a failure aborts the remaining loops
but each queue reached so far is left empty (`drain` semantics). -/
def YyResourceHandler.serialize (d : YyResourceDesc T A)
    (h : YyResourceHandler T A) (dm : DirectoryManager)
    (oracle : FsOp → Bool) :
    YyResourceHandler T A × List FsOp × SerializeResult :=
  let t₁ := runRemovals dm oracle d.SUBPATH_NAME h.resources_to_remove
  let h₁ := { h with resources_to_remove := [] }
  if t₁.2 then
    let t₂ := runFolderCleanup dm oracle d.SUBPATH_NAME
      h.associated_folders_to_cleanup
    let h₂ := { h₁ with associated_folders_to_cleanup := [] }
    if t₂.2 then
      let t₃ := runFileCleanup dm oracle d.SUBPATH_NAME
        h.associated_files_to_cleanup
      let h₃ := { h₂ with associated_files_to_cleanup := [] }
      if t₃.2 then
        let t₄ := runReserialize d dm oracle h.resources
          h.resources_to_reserialize
        let h₄ := { h₃ with resources_to_reserialize := [] }
        (h₄, t₁.1 ++ t₂.1 ++ t₃.1 ++ t₄.1, t₄.2)
      else (h₃, t₁.1 ++ t₂.1 ++ t₃.1, .ioError)
    else (h₂, t₁.1 ++ t₂.1, .ioError)
  else (h₁, t₁.1, .ioError)

end SerializeLoop

/-! ### Per-item operation shapes, as the spec describes them -/

/-- The operation a queued removal performs: deleting the resource's entire
backing directory. -/
def removalOp (dm : DirectoryManager) (subpath r : String) : FsOp :=
  FsOp.remove_dir_all
    (pathParent (dm.resource_file (FilesystemPath.new_path subpath r)))

/-- The operation a queued folder cleanup performs. -/
def folderCleanupOp (dm : DirectoryManager) (subpath : String)
    (folder : FsPath) : FsOp :=
  FsOp.remove_dir_all (dm.resource_file [subpath] ++ folder)

/-- The operation a queued file cleanup performs. -/
def fileCleanupOp (dm : DirectoryManager) (subpath : String)
    (file : FsPath) : FsOp :=
  FsOp.remove_file (dm.resource_file [subpath] ++ file)

section SerializeSpec

variable {T A : Type}

/-- The operations a queued reserialization performs: directory creation,
the payload write when the associated data is resident, then the
definition write. -/
def reserializeOps (d : YyResourceDesc T A) (dm : DirectoryManager)
    (resources : List (String × YyResourceData T A)) (r : String) :
    List FsOp :=
  match mapFind r resources with
  | none => []
  | some resource =>
    let yy_path := dm.resource_file
      (FilesystemPath.new d.SUBPATH_NAME (d.name resource.yy_resource)).path
    reserializePreOps yy_path resource.associated_data.isSome
        (d.name resource.yy_resource) ++
      [FsOp.serialize_json yy_path]

end SerializeSpec

/-! ### A concrete resource type for witnesses -/

/-- A minimal concrete resource: just a name. -/
structure SimpleRes where
  rname : String
  deriving DecidableEq, Repr

/-- A concrete descriptor whose associated-data deserialization always
fails (backing files unreadable). -/
def sdFail : YyResourceDesc SimpleRes Nat where
  name := SimpleRes.rname
  relative_yy_directory := fun r => ["sprites", r.rname]
  cleanup_on_replace := fun r => ([[r.rname ++ ".png"]], [[r.rname ++ "_layers"]])
  deserialize_associated_data := fun _ _ => .error "unreadable"
  SUBPATH_NAME := "sprites"

/-- A concrete descriptor whose associated-data deserialization always
succeeds with `99`. -/
def sdOk : YyResourceDesc SimpleRes Nat where
  name := SimpleRes.rname
  relative_yy_directory := fun r => ["sprites", r.rname]
  cleanup_on_replace := fun r => ([[r.rname ++ ".png"]], [[r.rname ++ "_layers"]])
  deserialize_associated_data := fun _ _ => .ok 99
  SUBPATH_NAME := "sprites"

/-! ### Lemmas about `position`, `Files.detach` and the map model -/

theorem position_eq_none {α : Type} (p : α → Bool) (l : List α)
    (h : ∀ x ∈ l, p x = false) : position p l = none := by
  induction l with
  | nil => rfl
  | cons hd tl ih =>
    simp only [position]
    rw [if_neg (by simp [h hd (List.mem_cons_self _ _)]),
      ih (fun x hx => h x (List.mem_cons_of_mem _ hx))]
    rfl

theorem position_append {α : Type} (p : α → Bool) (l₁ : List α) (x : α)
    (l₂ : List α) (hx : p x = true) (h₁ : ∀ y ∈ l₁, p y = false) :
    position p (l₁ ++ x :: l₂) = some l₁.length := by
  induction l₁ with
  | nil => simp [position, hx]
  | cons hd tl ih =>
    simp only [List.cons_append, position, List.append_eq]
    rw [if_neg (by simp [h₁ hd (List.mem_cons_self _ _)]),
      ih (fun y hy => h₁ y (List.mem_cons_of_mem _ hy))]
    rfl

theorem position_lt_length {α : Type} (p : α → Bool) (l : List α) (i : Nat)
    (h : position p l = some i) : i < l.length := by
  induction l generalizing i with
  | nil => simp [position] at h
  | cons hd tl ih =>
    simp only [position] at h
    split at h
    · cases h
      simp
    · cases hpos : position p tl with
      | none => rw [hpos] at h; cases h
      | some j =>
        rw [hpos] at h
        simp at h
        have := ih j hpos
        simp only [List.length_cons]
        omega

theorem get?_append_cons {α : Type} (l₁ : List α) (x : α) (l₂ : List α) :
    (l₁ ++ x :: l₂).get? l₁.length = some x := by
  induction l₁ with
  | nil => rfl
  | cons hd tl ih => simpa using ih

theorem eraseIdx_append_cons {α : Type} (l₁ : List α) (x : α) (l₂ : List α) :
    (l₁ ++ x :: l₂).eraseIdx l₁.length = l₁ ++ l₂ := by
  induction l₁ with
  | nil => rfl
  | cons hd tl ih => simpa using ih

theorem contains_name_eq_position_isSome (fs : Files) (name : String) :
    fs.contains_name name =
      (position (fun v => v.name == name) fs).isSome := by
  induction fs with
  | nil => rfl
  | cons hd tl ih =>
    simp only [Files.contains_name, List.any_cons, position]
    by_cases hbeq : (hd.name == name) = true
    · simp [hbeq]
    · simp only [Bool.not_eq_true] at hbeq
      rw [if_neg (by simp [hbeq])]
      simp only [hbeq, Bool.false_or]
      simp only [Files.contains_name] at ih
      rw [ih]
      cases position (fun v => v.name == name) tl <;> simp

theorem detach_length (fs : Files) (name : String) :
    (fs.detach name).2.length =
      if fs.contains_name name then fs.length - 1 else fs.length := by
  unfold Files.detach
  rw [contains_name_eq_position_isSome]
  cases hpos : position (fun v => v.name == name) fs with
  | none => simp
  | some p =>
    have hlt := position_lt_length _ _ _ hpos
    simp only [Option.isSome_some, if_pos]
    exact List.length_eraseIdx_of_lt hlt

theorem mapInsert_length {β : Type} (k : String) (v : β)
    (m : List (String × β)) :
    (mapInsert k v m).1.length =
      if mapContains k m then m.length else m.length + 1 := by
  induction m with
  | nil => rfl
  | cons hd tl ih =>
    simp only [mapInsert, mapContains, mapFind]
    split
    · simp [mapContains]
    · rename_i hne
      simp only [List.length_cons, if_neg hne]
      simp only [mapContains] at ih
      rw [ih]
      split <;> rfl

theorem mapAdjust_keys {β : Type} (k : String) (f : β → β)
    (m : List (String × β)) :
    (mapAdjust k f m).map Prod.fst = m.map Prod.fst := by
  induction m with
  | nil => rfl
  | cons hd tl ih =>
    simp only [mapAdjust]
    split <;> simp [ih]

theorem mapFind_mapAdjust_self {β : Type} (k : String) (f : β → β)
    (m : List (String × β)) :
    mapFind k (mapAdjust k f m) = (mapFind k m).map f := by
  induction m with
  | nil => rfl
  | cons hd tl ih =>
    simp only [mapAdjust, mapFind]
    split <;> rename_i hk
    · simp [mapFind, hk]
    · simp [mapFind, hk, ih]

theorem mapFind_mapAdjust_ne {β : Type} (k k₁ : String) (f : β → β)
    (m : List (String × β)) (h : k₁ ≠ k) :
    mapFind k₁ (mapAdjust k f m) = mapFind k₁ m := by
  induction m with
  | nil => rfl
  | cons hd tl ih =>
    by_cases hk : hd.1 = k
    · have hne₁ : ¬ hd.1 = k₁ := by rw [hk]; exact Ne.symm h
      simp only [mapAdjust, if_pos hk, mapFind, if_neg hne₁]
    · simp only [mapAdjust, if_neg hk, mapFind]
      split <;> simp [ih]

theorem mapFind_eq_none_of_not_mem_keys {β : Type} (k : String)
    (m : List (String × β)) (h : k ∉ m.map Prod.fst) : mapFind k m = none := by
  induction m with
  | nil => rfl
  | cons hd tl ih =>
    simp only [List.map_cons, List.mem_cons] at h
    push_neg at h
    simp only [mapFind, if_neg (fun he : hd.1 = k => h.1 he.symm), ih h.2]

/-! ### Concrete inputs for witnesses and counterexamples -/

/-- A concrete file leaf named `a`. -/
def fpA : FilesystemPath := FilesystemPath.new "sprites" "a"

/-- A concrete file leaf named `b`. -/
def fpB : FilesystemPath := FilesystemPath.new "sprites" "b"

/-- A concrete file leaf named `c`. -/
def fpC : FilesystemPath := FilesystemPath.new "sprites" "c"

/-- A concrete name index holding only the name `a`. -/
def rnW : ResourceNames := ⟨[("a", ⟨Resource.Sprite, 0, []⟩)]⟩

/-- A concrete child list holding only the leaf `a`. -/
def fsW : Files := [fpA]

/-! ### C9 -/

/-- C9: `Files::attach` appends the new leaf at the end of the sibling
list; `Files::detach` of an absent name returns `none` and changes
nothing; `Files::detach` of a present name removes exactly the first
entry bearing that name, returns it, and keeps every other entry in its
original relative order. -/
theorem files_attach_detach_order (fs : Files) (name : String)
    (f : FilesystemPath) :
    (fs.attach f = fs ++ [f]) ∧
    ((∀ x ∈ fs, x.name ≠ name) → fs.detach name = (none, fs)) ∧
    (∀ l₁ x l₂, fs = l₁ ++ x :: l₂ → x.name = name →
      (∀ y ∈ l₁, y.name ≠ name) → fs.detach name = (some x, l₁ ++ l₂)) := by
  refine ⟨List.concat_eq_append fs f, ?_, ?_⟩
  · intro habs
    unfold Files.detach
    rw [position_eq_none]
    intro x hx
    simp [habs x hx]
  · intro l₁ x l₂ hsplit hx h₁
    subst hsplit
    unfold Files.detach
    rw [position_append (fun v => v.name == name) l₁ x l₂ (by simp [hx])
      (fun y hy => by simp [h₁ y hy])]
    show (List.get? (l₁ ++ x :: l₂) l₁.length,
        List.eraseIdx (l₁ ++ x :: l₂) l₁.length) = (some x, l₁ ++ l₂)
    rw [get?_append_cons, eraseIdx_append_cons]

/-- Witness for C9 at a concrete three-element sibling list. -/
theorem files_attach_detach_order_witness :
    Files.detach [fpA, fpB, fpC] "b" = (some fpB, [fpA, fpC]) ∧
    Files.attach [fpA] fpB = [fpA, fpB] := by
  constructor
  · exact (files_attach_detach_order [fpA, fpB, fpC] "b" fpB).2.2
      [fpA] fpB [fpC] rfl rfl (by decide)
  · exact (files_attach_detach_order [fpA] "b" fpB).1

/-! ### C1 -/

/-- C1 as stated is false: starting from a state where the file-leaf count
equals the name-index count, the lower-level `Files::attach` adds a file
leaf without touching the name index, so the counts differ afterwards. -/
theorem files_attach_breaks_count :
    ([] : Files).length = (ResourceNames.mk []).names.length ∧
    (Files.attach ([] : Files) fpA).length ≠
      (ResourceNames.mk []).names.length := by
  constructor
  · rfl
  · decide

/-- C1 amended: `Files::add` of a name the index does not yet hold, and
`Files::remove` of a name held by both structures or by neither, preserve
the equality of the file-leaf count and the name-index count; the
lower-level `attach`/`detach` give no such guarantee. -/
theorem files_add_remove_preserve_count (fs : Files) (rn : ResourceNames)
    (subpath name : String) (res : Resource) (order : Nat) (parent : FsPath)
    (hlen : fs.length = rn.names.length) :
    (rn.containsName name = false →
      (Files.add fs rn subpath name res order parent).1.length =
        (Files.add fs rn subpath name res order parent).2.names.length) ∧
    (fs.contains_name name = rn.containsName name →
      (Files.remove fs rn name).1.length =
        (Files.remove fs rn name).2.names.length) := by
  constructor
  · intro hno
    have hno₂ : mapContains name rn.names = false := hno
    simp only [Files.add, Files.attach, List.length_concat,
      ResourceNames.insert]
    rw [if_neg (by simp [hno₂]), mapInsert_length, if_neg (by simp [hno₂]),
      hlen]
  · intro hsame
    have hsame₂ : fs.contains_name name = mapContains name rn.names := hsame
    simp only [Files.remove, ResourceNames.remove]
    rw [detach_length, mapRemove_length, hsame₂, hlen]

/-- Witness for the amended C1: an add of the fresh name `b` and a remove
of the present name `a`, both preserving the count equality. -/
theorem files_add_remove_preserve_count_witness :
    (Files.add fsW rnW "sprites" "b" Resource.Script 1 []).1.length =
      (Files.add fsW rnW "sprites" "b" Resource.Script 1 []).2.names.length ∧
    (Files.remove fsW rnW "a").1.length =
      (Files.remove fsW rnW "a").2.names.length := by
  constructor
  · exact (files_add_remove_preserve_count fsW rnW "sprites" "b"
      Resource.Script 1 [] (by decide)).1 (by decide)
  · exact (files_add_remove_preserve_count fsW rnW "sprites" "a"
      Resource.Sprite 0 [] (by decide)).2 (by decide)

/-! ### Helper lemmas about `YyResourceHandler::set` -/

section SetLemmas

variable {T A : Type}

theorem set_resources (d : YyResourceDesc T A) (h : YyResourceHandler T A)
    (v : T) (a : A) :
    (h.set d v a).1.resources =
      (mapInsert (d.name v) ⟨v, some a⟩ h.resources).1 := by
  simp only [YyResourceHandler.set, YyResourceHandler.insert_resource]
  cases hm : (mapInsert (d.name v) ⟨v, some a⟩ h.resources).2 <;> simp [hm]

theorem set_reserialize (d : YyResourceDesc T A) (h : YyResourceHandler T A)
    (v : T) (a : A) :
    (h.set d v a).1.resources_to_reserialize =
      h.resources_to_reserialize ++ [d.name v] := by
  simp only [YyResourceHandler.set, YyResourceHandler.insert_resource]
  cases hm : (mapInsert (d.name v) ⟨v, some a⟩ h.resources).2 <;> simp [hm]

theorem set_remove_queue (d : YyResourceDesc T A) (h : YyResourceHandler T A)
    (v : T) (a : A) :
    (h.set d v a).1.resources_to_remove = h.resources_to_remove := by
  simp only [YyResourceHandler.set, YyResourceHandler.insert_resource]
  cases hm : (mapInsert (d.name v) ⟨v, some a⟩ h.resources).2 <;> simp [hm]

theorem set_ret (d : YyResourceDesc T A) (h : YyResourceHandler T A)
    (v : T) (a : A) :
    (h.set d v a).2 = mapFind (d.name v) h.resources := by
  simp only [YyResourceHandler.set, YyResourceHandler.insert_resource]
  rw [← mapInsert_snd_eq_mapFind (d.name v) ⟨v, some a⟩ h.resources]
  cases hm : (mapInsert (d.name v) ⟨v, some a⟩ h.resources).2 <;> simp [hm]

theorem set_files_queue (d : YyResourceDesc T A) (h : YyResourceHandler T A)
    (v : T) (a : A) :
    (h.set d v a).1.associated_files_to_cleanup =
      h.associated_files_to_cleanup ++
        (match mapFind (d.name v) h.resources with
         | some old => (d.cleanup_on_replace old.yy_resource).1
         | none => []) := by
  simp only [YyResourceHandler.set, YyResourceHandler.insert_resource]
  rw [← mapInsert_snd_eq_mapFind (d.name v) ⟨v, some a⟩ h.resources]
  cases hm : (mapInsert (d.name v) ⟨v, some a⟩ h.resources).2 <;> simp [hm]

theorem set_folders_queue (d : YyResourceDesc T A)
    (h : YyResourceHandler T A) (v : T) (a : A) :
    (h.set d v a).1.associated_folders_to_cleanup =
      h.associated_folders_to_cleanup ++
        (match mapFind (d.name v) h.resources with
         | some old => (d.cleanup_on_replace old.yy_resource).2
         | none => []) := by
  simp only [YyResourceHandler.set, YyResourceHandler.insert_resource]
  rw [← mapInsert_snd_eq_mapFind (d.name v) ⟨v, some a⟩ h.resources]
  cases hm : (mapInsert (d.name v) ⟨v, some a⟩ h.resources).2 <;> simp [hm]

end SetLemmas

/-- The empty concrete handler. -/
def h0 : YyResourceHandler SimpleRes Nat := YyResourceHandler.new SimpleRes Nat

/-- A concrete handler holding `a` with no resident associated data. -/
def hA : YyResourceHandler SimpleRes Nat :=
  ⟨[("a", ⟨⟨"a"⟩, none⟩)], [], [], [], []⟩

/-! ### C2 -/

/-- C2 as stated is false: a second `set` of a same-named resource appends
a second copy of the name to the reserialize queue — `Vec::push` — rather
than replacing the prior entry, so the queue after two calls differs from
the queue after one. -/
theorem set_requeue_duplicates :
    ((h0.set sdFail ⟨"a"⟩ 0).1.set sdFail ⟨"a"⟩ 0).1.resources_to_reserialize
        ≠ (h0.set sdFail ⟨"a"⟩ 0).1.resources_to_reserialize ∧
    ((h0.set sdFail ⟨"a"⟩ 0).1.set sdFail ⟨"a"⟩ 0).1.resources_to_reserialize
        = ["a", "a"] ∧
    (h0.set sdFail ⟨"a"⟩ 0).1.resources_to_reserialize = ["a"] := by
  refine ⟨by decide, rfl, rfl⟩

/-- C2 amended: re-queuing a name appends it: calling `set` twice with the
same resource leaves the same resources map as calling it once, but the
reserialize queue carries the name once more per call. -/
theorem set_set_requeue_appends (d : YyResourceDesc T A)
    (h : YyResourceHandler T A) (v : T) (a : A) :
    ((h.set d v a).1.set d v a).1.resources_to_reserialize =
      (h.set d v a).1.resources_to_reserialize ++ [d.name v] ∧
    ((h.set d v a).1.set d v a).1.resources = (h.set d v a).1.resources := by
  constructor
  · rw [set_reserialize]
  · rw [set_resources, set_resources, mapInsert_idem]

/-! ### C6 -/

/-- C6: `set` is an unconditional, total upsert: it stores the definition
and data under the resource name, returns the prior entry of that name
(`none` when absent), appends the name to the reserialize queue, leaves
the removal queue alone, and extends the cleanup queues by exactly the
files and folders the `cleanup_on_replace` hook of the displaced entry
names (nothing when no entry was displaced). -/
theorem set_upsert (d : YyResourceDesc T A) (h : YyResourceHandler T A)
    (v : T) (a : A) :
    (h.set d v a).2 = mapFind (d.name v) h.resources ∧
    mapFind (d.name v) (h.set d v a).1.resources = some ⟨v, some a⟩ ∧
    (∀ k, k ≠ d.name v →
      mapFind k (h.set d v a).1.resources = mapFind k h.resources) ∧
    (h.set d v a).1.resources_to_reserialize =
      h.resources_to_reserialize ++ [d.name v] ∧
    (h.set d v a).1.resources_to_remove = h.resources_to_remove ∧
    (h.set d v a).1.associated_files_to_cleanup =
      h.associated_files_to_cleanup ++
        (match mapFind (d.name v) h.resources with
         | some old => (d.cleanup_on_replace old.yy_resource).1
         | none => []) ∧
    (h.set d v a).1.associated_folders_to_cleanup =
      h.associated_folders_to_cleanup ++
        (match mapFind (d.name v) h.resources with
         | some old => (d.cleanup_on_replace old.yy_resource).2
         | none => []) := by
  refine ⟨set_ret d h v a, ?_, ?_, set_reserialize d h v a,
    set_remove_queue d h v a, set_files_queue d h v a,
    set_folders_queue d h v a⟩
  · rw [set_resources, mapFind_mapInsert_self]
  · intro k hk
    rw [set_resources, mapFind_mapInsert_ne _ _ _ _ hk]

/-- Witness for C6 at a concrete handler: replacing `a` returns the prior
entry, and the lookup of an unrelated name is unchanged. -/
theorem set_upsert_witness :
    (hA.set sdFail ⟨"a"⟩ 7).2 = mapFind "a" hA.resources ∧
    mapFind "b" (hA.set sdFail ⟨"a"⟩ 7).1.resources =
      mapFind "b" hA.resources := by
  constructor
  · exact (set_upsert sdFail hA ⟨"a"⟩ 7).1
  · exact (set_upsert sdFail hA ⟨"a"⟩ 7).2.2.1 "b" (by decide)

/-! ### Helper lemmas about `load_resource_associated_data` and `remove` -/

theorem mapFind_isSome_of_mem_keys {β : Type} (k : String)
    (m : List (String × β)) (h : k ∈ m.map Prod.fst) :
    (mapFind k m).isSome := by
  induction m with
  | nil => simp at h
  | cons hd tl ih =>
    simp only [List.map_cons, List.mem_cons] at h
    by_cases hk : hd.1 = k
    · simp [mapFind, hk]
    · simp only [mapFind, if_neg hk]
      exact ih (h.resolve_left (fun he => hk he.symm))

section LoadLemmas

variable {T A : Type}

theorem load_preserves_queues (d : YyResourceDesc T A)
    (h : YyResourceHandler T A) (name : String) (path : FsPath) :
    (h.load_resource_associated_data d name path).1.resources_to_reserialize
        = h.resources_to_reserialize ∧
    (h.load_resource_associated_data d name path).1.associated_files_to_cleanup
        = h.associated_files_to_cleanup ∧
    (h.load_resource_associated_data d name path).1.associated_folders_to_cleanup
        = h.associated_folders_to_cleanup ∧
    (h.load_resource_associated_data d name path).1.resources_to_remove
        = h.resources_to_remove := by
  cases hfind : mapFind name h.resources with
  | none =>
    simp only [YyResourceHandler.load_resource_associated_data, hfind]
    exact ⟨trivial, trivial, trivial, trivial⟩
  | some resource =>
    cases hdes : d.deserialize_associated_data resource.yy_resource path with
    | ok a =>
      simp only [YyResourceHandler.load_resource_associated_data, hfind, hdes]
      exact ⟨trivial, trivial, trivial, trivial⟩
    | error e =>
      simp only [YyResourceHandler.load_resource_associated_data, hfind, hdes]
      exact ⟨trivial, trivial, trivial, trivial⟩

theorem load_resources_keys (d : YyResourceDesc T A)
    (h : YyResourceHandler T A) (name : String) (path : FsPath) :
    (h.load_resource_associated_data d name path).1.resources.map Prod.fst
      = h.resources.map Prod.fst := by
  cases hfind : mapFind name h.resources with
  | none =>
    simp only [YyResourceHandler.load_resource_associated_data, hfind]
  | some resource =>
    cases hdes : d.deserialize_associated_data resource.yy_resource path with
    | ok a =>
      simp only [YyResourceHandler.load_resource_associated_data, hfind, hdes]
      exact mapAdjust_keys _ _ _
    | error e =>
      simp only [YyResourceHandler.load_resource_associated_data, hfind, hdes]

end LoadLemmas

/-! ### C7 -/

/-- C7: `remove` of an absent name returns `none` and leaves the handler
unchanged; `remove` of a present name always returns `some` with the
removed definition — whatever the lazy-load of non-resident associated
data does, including failing — appends the name to the removal queue, and
deletes the definition from the resources map. -/
theorem remove_spec (d : YyResourceDesc T A) (h : YyResourceHandler T A)
    (name : String) :
    (mapFind name h.resources = none → h.remove d name = (h, none)) ∧
    (∀ entry, mapFind name h.resources = some entry →
      (∃ assoc, (h.remove d name).2 = some (entry.yy_resource, assoc)) ∧
      (h.remove d name).1.resources_to_remove =
        h.resources_to_remove ++ [name] ∧
      ((h.resources.map Prod.fst).Nodup →
        mapFind name (h.remove d name).1.resources = none)) := by
  constructor
  · intro habs
    have h₂ : (mapRemove name h.resources).2 = none :=
      (mapRemove_snd_eq_mapFind name h.resources).trans habs
    simp only [YyResourceHandler.remove, h₂]
  · intro entry hfind
    have h₂ : (mapRemove name h.resources).2 = some entry :=
      (mapRemove_snd_eq_mapFind name h.resources).trans hfind
    simp only [YyResourceHandler.remove, h₂]
    cases hassoc : entry.associated_data with
    | none =>
      simp only [hassoc, Option.isNone_none, if_true]
      refine ⟨⟨_, rfl⟩, ?_, ?_⟩
      · rw [(load_preserves_queues d _ _ _).2.2.2]
      · intro hnd
        apply mapFind_eq_none_of_not_mem_keys
        rw [load_resources_keys]
        intro hmem
        have hs := mapFind_isSome_of_mem_keys name
          ((mapRemove name h.resources).1) hmem
        rw [mapFind_mapRemove_self name h.resources hnd] at hs
        simp at hs
    | some a =>
      simp only [hassoc, Option.isNone_some, Bool.false_eq_true, if_false]
      refine ⟨⟨_, rfl⟩, by trivial, ?_⟩
      intro hnd
      apply mapFind_eq_none_of_not_mem_keys
      intro hmem
      have hs := mapFind_isSome_of_mem_keys name
        ((mapRemove name h.resources).1) hmem
      rw [mapFind_mapRemove_self name h.resources hnd] at hs
      simp at hs

/-- Witness for C7: removing the absent `z` is a no-op; removing the
present `a` succeeds although its lazy load fails. -/
theorem remove_spec_witness :
    hA.remove sdFail "z" = (hA, none) ∧
    (∃ assoc, (hA.remove sdFail "a").2 = some ((⟨"a"⟩ : SimpleRes), assoc)) ∧
    (hA.remove sdFail "a").1.resources_to_remove =
      hA.resources_to_remove ++ ["a"] ∧
    mapFind "a" (hA.remove sdFail "a").1.resources = none := by
  refine ⟨(remove_spec sdFail hA "z").1 (by decide), ?_, ?_, ?_⟩
  · exact ((remove_spec sdFail hA "a").2 ⟨⟨"a"⟩, none⟩ (by decide)).1
  · exact ((remove_spec sdFail hA "a").2 ⟨⟨"a"⟩, none⟩ (by decide)).2.1
  · exact ((remove_spec sdFail hA "a").2 ⟨⟨"a"⟩, none⟩ (by decide)).2.2
      (by decide)

/-! ### C10 -/

/-- C10: when the entry of a name has no resident associated data — the
key and the resource name agreeing, keys unique — `remove` returns the
definition paired with `none` for every descriptor: the lazy load inside
`remove` runs on the handler from which the entry was already removed, so
it always fails with `ResourceNotFound`, even when the disk read would
succeed. -/
theorem remove_nonresident_no_reload (d : YyResourceDesc T A)
    (h : YyResourceHandler T A) (name : String)
    (entry : YyResourceData T A)
    (hfind : mapFind name h.resources = some entry)
    (hassoc : entry.associated_data = none)
    (hkey : d.name entry.yy_resource = name)
    (hnd : (h.resources.map Prod.fst).Nodup) :
    (h.remove d name).2 = some (entry.yy_resource, none) := by
  have h₂ : (mapRemove name h.resources).2 = some entry :=
    (mapRemove_snd_eq_mapFind name h.resources).trans hfind
  have h₃ : mapFind name ((mapRemove name h.resources).1) = none :=
    mapFind_mapRemove_self name h.resources hnd
  simp only [YyResourceHandler.remove, h₂, hassoc, Option.isNone_none,
    if_true, YyResourceHandler.load_resource_associated_data, hkey, h₃]
  rfl

/-- Witness for C10: even with a descriptor whose disk read succeeds with
`99`, removing the non-resident `a` yields `(definition, none)`. -/
theorem remove_nonresident_no_reload_witness :
    (hA.remove sdOk "a").2 = some ((⟨"a"⟩ : SimpleRes), none) :=
  remove_nonresident_no_reload sdOk hA "a" ⟨⟨"a"⟩, none⟩ (by decide) rfl rfl
    (by decide)

/-! ### C8 -/

/-- A concrete handler holding `a` WITH resident associated data `0`. -/
def hAr : YyResourceHandler SimpleRes Nat :=
  ⟨[("a", ⟨⟨"a"⟩, some 0⟩)], [], [], [], []⟩

/-- C8 as stated is false: the load is not guarded on residency. With
associated data `0` already resident and a disk read yielding `99`, the
call still reads the disk, overwrites the resident value and returns the
fresh one. -/
theorem load_reloads_resident :
    (hAr.load_resource_associated_data sdOk "a" ["p"]).2 = .ok 99 ∧
    mapFind "a"
        (hAr.load_resource_associated_data sdOk "a" ["p"]).1.resources =
      some ⟨⟨"a"⟩, some 99⟩ ∧
    (99 : Nat) ≠ 0 := by
  refine ⟨rfl, rfl, by decide⟩

/-- C8 amended: `load_resource_associated_data` deserializes from disk
unconditionally whenever the name is managed — discarding any resident
payload — stores the fresh value in the entry and returns it, leaving
every other entry and all queues unchanged; it fails with
`ResourceNotFound` exactly when the name is not managed, and a failing
disk read propagates as a deserialization error with the handler
unchanged. -/
theorem load_assoc_spec (d : YyResourceDesc T A) (h : YyResourceHandler T A)
    (name : String) (path : FsPath) :
    (mapFind name h.resources = none →
      h.load_resource_associated_data d name path = (h, .error (.inl ()))) ∧
    (∀ entry, mapFind name h.resources = some entry →
      (∀ e, d.deserialize_associated_data entry.yy_resource path = .error e →
        h.load_resource_associated_data d name path = (h, .error (.inr e))) ∧
      (∀ a, d.deserialize_associated_data entry.yy_resource path = .ok a →
        (h.load_resource_associated_data d name path).2 = .ok a ∧
        mapFind name
            (h.load_resource_associated_data d name path).1.resources =
          some { entry with associated_data := some a } ∧
        (∀ k, k ≠ name →
          mapFind k
              (h.load_resource_associated_data d name path).1.resources =
            mapFind k h.resources) ∧
        (h.load_resource_associated_data d name path).1.resources_to_reserialize
            = h.resources_to_reserialize ∧
        (h.load_resource_associated_data d name path).1.resources_to_remove
            = h.resources_to_remove)) := by
  constructor
  · intro habs
    simp only [YyResourceHandler.load_resource_associated_data, habs]
  · intro entry hfind
    constructor
    · intro e hdes
      simp only [YyResourceHandler.load_resource_associated_data, hfind, hdes]
    · intro a hdes
      simp only [YyResourceHandler.load_resource_associated_data, hfind, hdes]
      refine ⟨by trivial, ?_, ?_, by trivial, by trivial⟩
      · rw [mapFind_mapAdjust_self, hfind]
        rfl
      · intro k hk
        rw [mapFind_mapAdjust_ne _ _ _ _ hk]

/-- Witness for the amended C8: loading the non-resident `a` succeeds and
stores the disk value; loading an unmanaged name fails `ResourceNotFound`. -/
theorem load_assoc_spec_witness :
    (hA.load_resource_associated_data sdOk "a" ["p"]).2 = .ok 99 ∧
    h0.load_resource_associated_data sdOk "missing" [] =
      (h0, .error (.inl ())) := by
  constructor
  · exact (((load_assoc_spec sdOk hA "a" ["p"]).2 ⟨⟨"a"⟩, none⟩
      (by decide)).2 99 rfl).1
  · exact (load_assoc_spec sdOk h0 "missing" []).1 (by decide)

/-! ### Serialize-loop lemmas for the all-successful oracle -/

/-- A concrete directory manager. -/
def dm0 : DirectoryManager := ⟨["root"]⟩

theorem runRemovals_allTrue (dm : DirectoryManager) (subpath : String)
    (l : List String) :
    runRemovals dm (fun _ => true) subpath l =
      (l.map (removalOp dm subpath), true) := by
  induction l with
  | nil => rfl
  | cons r rest ih => simp [runRemovals, removalOp, ih]

theorem runFolderCleanup_allTrue (dm : DirectoryManager) (subpath : String)
    (l : List FsPath) :
    runFolderCleanup dm (fun _ => true) subpath l =
      (l.map (folderCleanupOp dm subpath), true) := by
  induction l with
  | nil => rfl
  | cons r rest ih => simp [runFolderCleanup, folderCleanupOp, ih]

theorem runFileCleanup_allTrue (dm : DirectoryManager) (subpath : String)
    (l : List FsPath) :
    runFileCleanup dm (fun _ => true) subpath l =
      (l.map (fileCleanupOp dm subpath), true) := by
  induction l with
  | nil => rfl
  | cons r rest ih => simp [runFileCleanup, fileCleanupOp, ih]

theorem attemptOps_allTrue (ops : List FsOp) :
    attemptOps (fun _ => true) ops = (ops, true) := by
  induction ops with
  | nil => rfl
  | cons op rest ih => simp [attemptOps, ih]

theorem runReserialize_allTrue {T A : Type} (d : YyResourceDesc T A)
    (dm : DirectoryManager) (resources : List (String × YyResourceData T A))
    (l : List String) (hl : ∀ r ∈ l, (mapFind r resources).isSome) :
    runReserialize d dm (fun _ => true) resources l =
      ((l.map (reserializeOps d dm resources)).flatten, .ok) := by
  induction l with
  | nil => rfl
  | cons r rest ih =>
    have hr := hl r (List.mem_cons_self _ _)
    cases hfind : mapFind r resources with
    | none => rw [hfind] at hr; simp at hr
    | some resource =>
      have ihr := ih (fun x hx => hl x (List.mem_cons_of_mem _ hx))
      simp [runReserialize, hfind, attemptOps_allTrue, ihr,
        reserializeOps]

/-! ### C3 -/

/-- C3: with every disk operation succeeding and every queued reserialize
name present in the resources map, `serialize` emits exactly the removal
operations (deleting each backing directory), then the folder cleanups,
then the file cleanups, and only then the reserialization writes —
directory creation, the payload when resident, the definition — and
leaves all four queues empty. -/
theorem serialize_order {T A : Type} (d : YyResourceDesc T A)
    (h : YyResourceHandler T A) (dm : DirectoryManager)
    (hres : ∀ r ∈ h.resources_to_reserialize,
      (mapFind r h.resources).isSome) :
    (h.serialize d dm (fun _ => true)).2.2 = .ok ∧
    (h.serialize d dm (fun _ => true)).2.1 =
      h.resources_to_remove.map (removalOp dm d.SUBPATH_NAME) ++
      h.associated_folders_to_cleanup.map
        (folderCleanupOp dm d.SUBPATH_NAME) ++
      h.associated_files_to_cleanup.map (fileCleanupOp dm d.SUBPATH_NAME) ++
      (h.resources_to_reserialize.map (reserializeOps d dm h.resources)).flatten ∧
    (h.serialize d dm (fun _ => true)).1 =
      { h with
          resources_to_remove := [],
          associated_folders_to_cleanup := [],
          associated_files_to_cleanup := [],
          resources_to_reserialize := [] } := by
  have h₁ := runRemovals_allTrue dm d.SUBPATH_NAME h.resources_to_remove
  have h₂ := runFolderCleanup_allTrue dm d.SUBPATH_NAME
    h.associated_folders_to_cleanup
  have h₃ := runFileCleanup_allTrue dm d.SUBPATH_NAME
    h.associated_files_to_cleanup
  have h₄ := runReserialize_allTrue d dm h.resources
    h.resources_to_reserialize hres
  simp [YyResourceHandler.serialize, h₁, h₂, h₃, h₄, List.append_assoc]

/-- A concrete handler with every queue non-empty and the queued
reserialization present in the resources map. -/
def hQ : YyResourceHandler SimpleRes Nat :=
  ⟨[("a", ⟨⟨"a"⟩, some 5⟩)], ["a"], [["f.png"]], [["g_layers"]], ["b"]⟩

/-- Witness for C3 at a concrete handler with all four queues populated. -/
theorem serialize_order_witness :
    (hQ.serialize sdFail dm0 (fun _ => true)).2.2 = .ok :=
  (serialize_order sdFail hQ dm0 (by decide)).1

/-! ### C4 -/

/-- The handler after `set` of `X` followed by `remove` of `X`. -/
def hC4 : YyResourceHandler SimpleRes Nat :=
  ((h0.set sdFail ⟨"X"⟩ 0).1.remove sdFail "X").1

/-- C4 is the intent — the source says `expect("This should always be
valid.")` — but the code violates it: after `set` of `X` then `remove` of
`X`, the name `X` is still queued for reserialization while absent from
the resources map, and `serialize` reaches the panicking lookup even
though every disk operation succeeds. -/
theorem serialize_panics_after_set_remove :
    hC4.resources_to_reserialize = ["X"] ∧
    mapFind "X" hC4.resources = none ∧
    (hC4.serialize sdFail dm0 (fun _ => true)).2.2 = .panicked := by
  refine ⟨rfl, rfl, rfl⟩

/-! ### C5 -/

/-- An oracle under which deleting the backing directory of `a` fails and
every other operation succeeds. -/
def orFailA : FsOp → Bool :=
  fun op => decide (op ≠ removalOp dm0 "sprites" "a")

/-- A concrete handler with two queued removals, `a` then `b`. -/
def hR2 : YyResourceHandler SimpleRes Nat := ⟨[], [], [], [], ["a", "b"]⟩

/-- C5 as stated is false: when deleting the backing directory of `a`
fails, the queued removal of `b` was never attempted — its operation is
not in the trace — yet the removal queue comes back empty, so a retried
flush cannot complete the aborted work. -/
theorem serialize_drain_drops_unprocessed :
    (hR2.serialize sdFail dm0 orFailA).1.resources_to_remove = [] ∧
    (hR2.serialize sdFail dm0 orFailA).2.2 = .ioError ∧
    removalOp dm0 "sprites" "b" ∉ (hR2.serialize sdFail dm0 orFailA).2.1 := by
  refine ⟨rfl, rfl, by decide⟩

/-- C5 amended: whichever stage of `serialize` an I/O failure occurs in —
removals, folder cleanups, file cleanups or reserializations — the flush
aborts with `.ioError`; the queues drained by the completed earlier stages
and the queue being drained when the failure occurs come back empty — the
not-yet-processed entries of the failing queue are dropped with the
`drain` iterator, not kept for a retry — while only the queues of stages
never reached keep their contents, and the operations already performed
(the accumulated trace) are not rolled back. -/
theorem serialize_ioerror_any_stage {T A : Type} (d : YyResourceDesc T A)
    (h : YyResourceHandler T A) (dm : DirectoryManager)
    (oracle : FsOp → Bool) (tr₁ tr₂ tr₃ tr₄ : List FsOp) :
    (runRemovals dm oracle d.SUBPATH_NAME h.resources_to_remove =
        (tr₁, false) →
      h.serialize d dm oracle =
        ({ h with resources_to_remove := [] }, tr₁, .ioError)) ∧
    (runRemovals dm oracle d.SUBPATH_NAME h.resources_to_remove =
        (tr₁, true) →
      runFolderCleanup dm oracle d.SUBPATH_NAME
          h.associated_folders_to_cleanup = (tr₂, false) →
      h.serialize d dm oracle =
        ({ h with
            resources_to_remove := [],
            associated_folders_to_cleanup := [] },
          tr₁ ++ tr₂, .ioError)) ∧
    (runRemovals dm oracle d.SUBPATH_NAME h.resources_to_remove =
        (tr₁, true) →
      runFolderCleanup dm oracle d.SUBPATH_NAME
          h.associated_folders_to_cleanup = (tr₂, true) →
      runFileCleanup dm oracle d.SUBPATH_NAME
          h.associated_files_to_cleanup = (tr₃, false) →
      h.serialize d dm oracle =
        ({ h with
            resources_to_remove := [],
            associated_folders_to_cleanup := [],
            associated_files_to_cleanup := [] },
          tr₁ ++ tr₂ ++ tr₃, .ioError)) ∧
    (runRemovals dm oracle d.SUBPATH_NAME h.resources_to_remove =
        (tr₁, true) →
      runFolderCleanup dm oracle d.SUBPATH_NAME
          h.associated_folders_to_cleanup = (tr₂, true) →
      runFileCleanup dm oracle d.SUBPATH_NAME
          h.associated_files_to_cleanup = (tr₃, true) →
      runReserialize d dm oracle h.resources h.resources_to_reserialize =
          (tr₄, .ioError) →
      h.serialize d dm oracle =
        ({ h with
            resources_to_remove := [],
            associated_folders_to_cleanup := [],
            associated_files_to_cleanup := [],
            resources_to_reserialize := [] },
          tr₁ ++ tr₂ ++ tr₃ ++ tr₄, .ioError)) := by
  refine ⟨?_, ?_, ?_, ?_⟩
  · intro h₁
    simp [YyResourceHandler.serialize, h₁]
  · intro h₁ h₂
    simp [YyResourceHandler.serialize, h₁, h₂]
  · intro h₁ h₂ h₃
    simp [YyResourceHandler.serialize, h₁, h₂, h₃]
  · intro h₁ h₂ h₃ h₄
    simp [YyResourceHandler.serialize, h₁, h₂, h₃, h₄]

/-- An oracle under which deleting the stale folder `g` fails and every
other operation succeeds. -/
def orFailG : FsOp → Bool :=
  fun op => decide (op ≠ folderCleanupOp dm0 "sprites" ["g"])

/-- A concrete handler with a queued removal of `a` and a queued cleanup
of the folder `g`, plus later-stage queues that a folder failure must
leave untouched. -/
def hF : YyResourceHandler SimpleRes Nat :=
  ⟨[("c", ⟨⟨"c"⟩, none⟩)], ["c"], [["f.png"]], [["g"]], ["a"]⟩

/-- Witness for the amended C5: a failure in the removals stage of `hR2`,
and a failure in the folder-cleanup stage of `hF` after its removal of
`a` succeeded — the file and reserialize queues of `hF` survive while the
drained queues come back empty. -/
theorem serialize_ioerror_any_stage_witness :
    hR2.serialize sdFail dm0 orFailA =
      ({ hR2 with resources_to_remove := [] },
        [removalOp dm0 "sprites" "a"], .ioError) ∧
    hF.serialize sdFail dm0 orFailG =
      ({ hF with
          resources_to_remove := [],
          associated_folders_to_cleanup := [] },
        [removalOp dm0 "sprites" "a"] ++ [folderCleanupOp dm0 "sprites" ["g"]],
        .ioError) := by
  constructor
  · exact (serialize_ioerror_any_stage sdFail hR2 dm0 orFailA
      [removalOp dm0 "sprites" "a"] [] [] []).1 (by decide)
  · exact (serialize_ioerror_any_stage sdFail hF dm0 orFailG
      [removalOp dm0 "sprites" "a"] [folderCleanupOp dm0 "sprites" ["g"]]
      [] []).2.1 (by decide) (by decide)

end YyBoss
